import Mathlib

/-!
Verification development for the `osm-pbf` repository: a shallow embedding of
the blob-framing / indexing / reading pipeline (`src/io/blob.rs`,
`src/io/indexed_reader.rs`, `src/io/mmap_blob.rs`, `src/io/reader.rs`) and of
the block-level data structures (`src/blocks/string_table.rs`,
`src/blocks/primitives/*`), together with theorems settling the frozen claims
about the natural-language specification.

Modelling conventions:
- A byte source (`std::io::Cursor<Vec<u8>>`, a memory-mapped file) is a
  `List Nat`, each element one byte in `[0, 256)`.
- Rust `u32`/`u64` quantities that stay far below their overflow bounds in the
  modelled code paths (lengths, offsets, counters) are `Nat`; `i64` quantities
  that can be negative (element ids, deltas) are `Int`.
- Fallible Rust code returns `Except BlobError` in the model.
-/

namespace OsmPbf

/-- `BlobType` from `src/io/blob.rs`: the kind of payload a blob carries. -/
inductive BlobType where
  | OSMHeader : BlobType
  | OSMData : BlobType
  | Unknown : String → BlobType
deriving DecidableEq, Repr

/-- `BlobError` from `src/io/blob.rs` (the `Io` payload of the Rust enum is a
`std::io::Error`; the model keeps only the error kind it distinguishes,
unexpected end of file). -/
inductive BlobError where
  | Io : BlobError
  | HeaderTooLarge : Nat → Nat → BlobError
  | MessageTooLarge : Nat → Nat → BlobError
  | InvalidFormat : String → BlobError
  | Compression : String → BlobError
  | UnknownType : String → BlobError
deriving DecidableEq, Repr

/-- `MAX_BLOB_HEADER_SIZE` from `src/io/blob.rs`: 64 KiB. -/
def MAX_BLOB_HEADER_SIZE : Nat := 65536

/-- `MAX_BLOB_MESSAGE_SIZE` from `src/io/blob.rs`: 32 MiB. -/
def MAX_BLOB_MESSAGE_SIZE : Nat := 33554432

/-- `BlobHeader` from `src/io/blob.rs`. `indexdata` is always `None` in the
modelled code paths. -/
structure BlobHeader where
  blob_type : BlobType
  datasize : Nat
  indexdata : Option (List Nat)
deriving DecidableEq, Repr

/-- `BlobHeader::new` from `src/io/blob.rs`. -/
def BlobHeader.new (blob_type : BlobType) (datasize : Nat) : BlobHeader :=
  { blob_type := blob_type, datasize := datasize, indexdata := none }

/-- `BlobHeader::validate_size` from `src/io/blob.rs`: rejects header byte
lengths above 64 KiB with `HeaderTooLarge`. -/
def BlobHeader.validate_size (_self : BlobHeader) (header_size : Nat) :
    Except BlobError Unit :=
  if header_size > MAX_BLOB_HEADER_SIZE then
    .error (.HeaderTooLarge header_size MAX_BLOB_HEADER_SIZE)
  else
    .ok ()

/-- `BlobData` from `src/io/blob.rs`: raw or compressed payload bytes. -/
inductive BlobData where
  | Raw : List Nat → BlobData
  | ZlibData : List Nat → Nat → BlobData
  | LzmaData : List Nat → Nat → BlobData
  | Bzip2Data : List Nat → Nat → BlobData
deriving DecidableEq, Repr

/-- `BlobData::raw_size` from `src/io/blob.rs`. -/
def BlobData.raw_size : BlobData → Nat
  | .Raw data => data.length
  | .ZlibData _ raw_size => raw_size
  | .LzmaData _ raw_size => raw_size
  | .Bzip2Data _ raw_size => raw_size

/-- `BlobData::validate_size` from `src/io/blob.rs`: rejects uncompressed
sizes above 32 MiB with `MessageTooLarge`. -/
def BlobData.validate_size (self : BlobData) : Except BlobError Unit :=
  if self.raw_size > MAX_BLOB_MESSAGE_SIZE then
    .error (.MessageTooLarge self.raw_size MAX_BLOB_MESSAGE_SIZE)
  else
    .ok ()

/-- `Blob` from `src/io/blob.rs`. -/
structure Blob where
  header : BlobHeader
  data : BlobData
  offset : Nat
deriving DecidableEq, Repr

/-- `Blob::new_raw` from `src/io/blob.rs`. -/
def Blob.new_raw (blob_type : BlobType) (data : List Nat) (offset : Nat) :
    Except BlobError Blob :=
  let header := BlobHeader.new blob_type data.length
  let blob_data := BlobData.Raw data
  match blob_data.validate_size with
  | .error e => .error e
  | .ok () => .ok { header := header, data := blob_data, offset := offset }

/-- `ElementCounts` from `src/io/indexed_reader.rs`. -/
structure ElementCounts where
  nodes : Nat
  ways : Nat
  relations : Nat
  changesets : Nat
deriving DecidableEq, Repr

/-- `ElementCounts::default` (derived `Default`). -/
def ElementCounts.default : ElementCounts :=
  { nodes := 0, ways := 0, relations := 0, changesets := 0 }

/-- `BlobIndex` from `src/io/indexed_reader.rs`: one index entry per frame. -/
structure BlobIndex where
  offset : Nat
  size : Nat
  blob_type : BlobType
  id_range : Option (Int × Int)
  element_counts : ElementCounts
deriving DecidableEq, Repr

/-- `StringTable` from `src/blocks/string_table.rs`: the interning table of a
primitive block. -/
structure StringTable where
  s : List String
deriving DecidableEq, Repr

/-- `StringTable::new` from `src/blocks/string_table.rs`: index 0 is the empty
string. -/
def StringTable.new : StringTable :=
  { s := [""] }

/-- `StringTable::add_string` from `src/blocks/string_table.rs`: pushes the
string and returns its index (`len - 1` after the push). -/
def StringTable.add_string (self : StringTable) (string : String) :
    StringTable × Nat :=
  let s := self.s ++ [string]
  ({ s := s }, s.length - 1)

/-- `StringTable::get_string` from `src/blocks/string_table.rs`:
`self.s.get(index)`, absent out of range. -/
def StringTable.get_string (self : StringTable) (index : Nat) : Option String :=
  self.s.get? index

/-- `StringTable::len` from `src/blocks/string_table.rs`. -/
def StringTable.len (self : StringTable) : Nat :=
  self.s.length

/-- `StringTable::is_empty` from `src/blocks/string_table.rs`:
`self.s.len() <= 1`. -/
def StringTable.is_empty (self : StringTable) : Bool :=
  self.s.length ≤ 1

/-- A `StringTable` produced by `StringTable::new()` followed by one
`add_string` call per element of `adds`, in order. -/
def StringTable.build (adds : List String) : StringTable :=
  adds.foldl (fun t str => (t.add_string str).1) StringTable.new

/-- Modelled from the spec: the repository declares its delta-encoded fields
(`DenseNodes.ids/lats/lons`, `Way.refs`, `Relation.memids`, documented as
"Delta-encoded" in `src/blocks/primitives/*`) but contains no decoder —
`Reader::extract_elements_from_blob` in `src/io/reader.rs` is a placeholder
returning an empty list. Spec §4.5 Stage 4: the stored array is a
cumulative-sum-encoded sequence, `x[0] = d[0]`, `x[k] = x[k-1] + d[k]`, and an
empty input produces an empty output. (The spec's additive-overflow error is
outside this claim; values are mathematical integers here.) -/
def deltaDecode (d : List Int) : List Int :=
  go 0 d
where
  /-- Running-sum worker: `acc` is the value of the previous decoded element. -/
  go : Int → List Int → List Int
    | _, [] => []
    | acc, dk :: ds => (acc + dk) :: go (acc + dk) ds

/-- `IndexedReader::find_blobs_for_id_range` from `src/io/indexed_reader.rs`
(and the identical `MmapBlobReader::find_blobs_for_id_range` in
`src/io/mmap_blob.rs`): `enumerate().filter_map(..)` keeping a position when
its entry's `id_range` is unknown or overlaps `[min_id, max_id]`. The worker
carries the enumeration counter. -/
def find_blobs_for_id_range (blob_index : List BlobIndex)
    (min_id max_id : Int) : List Nat :=
  go blob_index 0
where
  go : List BlobIndex → Nat → List Nat
    | [], _ => []
    | blob :: rest, i =>
      match blob.id_range with
      | some (blob_min, blob_max) =>
        if blob_min ≤ max_id ∧ blob_max ≥ min_id then
          i :: go rest (i + 1)
        else
          go rest (i + 1)
      | none => i :: go rest (i + 1)

/-- A byte source: the in-memory contents behind a `Cursor` or a memory
mapping. -/
def ByteSource := List Nat

/-- `u32::from_be_bytes` applied to the four bytes of `file` starting at
`offset` (the callers read them with `read_exact` / `get_slice` after checking
that four bytes are available). -/
def readU32BE (file : List Nat) (offset : Nat) : Nat :=
  (file.getD offset 0) * 16777216 + (file.getD (offset + 1) 0) * 65536 +
    (file.getD (offset + 2) 0) * 256 + file.getD (offset + 3) 0

/-- `MmapBlobReader::read_blob_header_at_offset` from `src/io/mmap_blob.rs`:
at-end ⇒ `None`; a frame whose declared length extends beyond the file end ⇒
`InvalidFormat`; otherwise a stubbed header (`BlobType::OSMData`, the comment
in the source reads "For now, create a simplified header") paired with the
length field. -/
def mmapReadBlobHeaderAtOffset (file : List Nat) (offset : Nat) :
    Except BlobError (Option (BlobHeader × Nat)) :=
  if offset + 4 > file.length then
    .ok none
  else
    let blob_size := readU32BE file offset
    if offset + 4 + blob_size > file.length then
      .error (.InvalidFormat
        ("Blob at offset " ++ toString offset ++ " extends beyond file end"))
    else
      .ok (some (BlobHeader.new BlobType.OSMData blob_size, blob_size))

/-- One index entry as recorded by both `build_index` loops
(`src/io/indexed_reader.rs` and `src/io/mmap_blob.rs`): `offset` is the frame
start, `size` the frame's length field, `id_range` and `element_counts` left
at their defaults. -/
def mkIndexEntry (offset : Nat) (blob_size : Nat) (header : BlobHeader) :
    BlobIndex :=
  { offset := offset
    size := blob_size
    blob_type := header.blob_type
    id_range := none
    element_counts := ElementCounts.default }

/-- Loop body of `MmapBlobReader::build_index` from `src/io/mmap_blob.rs`:
while `current_offset < file_size`, read a header, record an entry, advance by
`4 + blob_size`; `None` breaks, errors propagate (the `?` in the source). -/
def mmapBuildIndexAux (file : List Nat) (offset : Nat) :
    Except BlobError (List BlobIndex) :=
  if _h : offset < file.length then
    match mmapReadBlobHeaderAtOffset file offset with
    | .error e => .error e
    | .ok none => .ok []
    | .ok (some (header, blob_size)) =>
      match mmapBuildIndexAux file (offset + 4 + blob_size) with
      | .error e => .error e
      | .ok rest => .ok (mkIndexEntry offset blob_size header :: rest)
  else
    .ok []
termination_by file.length - offset
decreasing_by
  omega

/-- `MmapBlobReader::build_index` from `src/io/mmap_blob.rs`, starting at
offset 0. -/
def mmapBuildIndex (file : List Nat) : Except BlobError (List BlobIndex) :=
  mmapBuildIndexAux file 0

/-- `IndexedReader::read_blob_header_at_offset` from
`src/io/indexed_reader.rs`, against an in-memory cursor: `read_exact` of the
four length bytes fails with `UnexpectedEof` (mapped to `Ok(None)`) exactly
when fewer than four bytes remain; otherwise a stubbed header
(`BlobType::OSMData`) paired with the length field. No other error can arise
from a cursor, so the model returns an `Option` directly. -/
def idxReadBlobHeaderAtOffset (file : List Nat) (offset : Nat) :
    Option (BlobHeader × Nat) :=
  if offset + 4 > file.length then
    none
  else
    let blob_size := readU32BE file offset
    some (BlobHeader.new BlobType.OSMData blob_size, blob_size)

/-- Loop body of `IndexedReader::build_index` from `src/io/indexed_reader.rs`:
record an entry per frame and advance by `4 + blob_size` until
`read_blob_header_at_offset` reports end of file. The payload is never
examined, so entries are recorded from the length field alone. (The source's
`Err` branch — downgrade to a warning and stop — is unreachable against a
cursor.) -/
def idxBuildIndexAux (file : List Nat) (offset : Nat) : List BlobIndex :=
  match h : idxReadBlobHeaderAtOffset file offset with
  | none => []
  | some (header, blob_size) =>
    mkIndexEntry offset blob_size header ::
      idxBuildIndexAux file (offset + 4 + blob_size)
termination_by file.length - offset
decreasing_by
  simp only [idxReadBlobHeaderAtOffset] at h
  split at h
  · exact absurd h (by simp)
  · omega

/-- `IndexedReader::build_index` from `src/io/indexed_reader.rs`, starting at
offset 0. -/
def idxBuildIndex (file : List Nat) : List BlobIndex :=
  idxBuildIndexAux file 0

/-- The `header_blob` slot as maintained by both `build_index` loops: each
entry whose type is `OSMHeader` overwrites the slot in file order. -/
def headerBlobSlot (blob_index : List BlobIndex) : Option BlobIndex :=
  blob_index.foldl
    (fun slot entry =>
      if entry.blob_type = BlobType.OSMHeader then some entry else slot)
    none

/-- `IndexStatistics` from `src/io/indexed_reader.rs`. -/
structure IndexStatistics where
  total_blobs : Nat
  header_blobs : Nat
  data_blobs : Nat
  unknown_blobs : Nat
  total_nodes : Nat
  total_ways : Nat
  total_relations : Nat
  total_changesets : Nat
deriving DecidableEq, Repr

/-- `IndexStatistics::default` (derived `Default`). -/
def IndexStatistics.default : IndexStatistics :=
  { total_blobs := 0, header_blobs := 0, data_blobs := 0, unknown_blobs := 0
    total_nodes := 0, total_ways := 0, total_relations := 0
    total_changesets := 0 }

/-- `IndexedReader::statistics` from `src/io/indexed_reader.rs` (identical to
`MmapBlobReader::statistics` in `src/io/mmap_blob.rs`): fold over the index
counting entries by type and summing the per-entry element counts, then set
`total_blobs` to the index length. -/
def statistics (blob_index : List BlobIndex) : IndexStatistics :=
  let stats := blob_index.foldl
    (fun stats entry =>
      let stats :=
        match entry.blob_type with
        | BlobType.OSMHeader => { stats with header_blobs := stats.header_blobs + 1 }
        | BlobType.OSMData => { stats with data_blobs := stats.data_blobs + 1 }
        | BlobType.Unknown _ => { stats with unknown_blobs := stats.unknown_blobs + 1 }
      { stats with
        total_nodes := stats.total_nodes + entry.element_counts.nodes
        total_ways := stats.total_ways + entry.element_counts.ways
        total_relations := stats.total_relations + entry.element_counts.relations
        total_changesets := stats.total_changesets + entry.element_counts.changesets })
    IndexStatistics.default
  { stats with total_blobs := blob_index.length }

/-- `Info` from `src/blocks/primitives/info.rs`. -/
structure Info where
  version : Int
  timestamp : Int
  changeset : Int
  uid : Int
  user_sid : Nat
  visible : Bool
deriving DecidableEq, Repr

/-- `MemberType` from `src/blocks/primitives/member_type.rs`. -/
inductive MemberType where
  | Node : MemberType
  | Way : MemberType
  | Relation : MemberType
deriving DecidableEq, Repr

/-- `Node` from `src/blocks/primitives/node.rs` (sparse format). -/
structure Node where
  id : Int
  keys : List Nat
  vals : List Nat
  info : Option Info
  lat : Int
  lon : Int
deriving DecidableEq, Repr

/-- `Way` from `src/blocks/primitives/way.rs`. -/
structure Way where
  id : Int
  keys : List Nat
  vals : List Nat
  info : Option Info
  refs : List Int
deriving DecidableEq, Repr

/-- `Relation` from `src/blocks/primitives/relation.rs`. -/
structure Relation where
  id : Int
  keys : List Nat
  vals : List Nat
  info : Option Info
  roles_sid : List Int
  memids : List Int
  types : List MemberType
deriving DecidableEq, Repr

/-- `ChangeSet` from `src/blocks/primitives/changeset.rs`. -/
structure ChangeSet where
  id : Int
  keys : List Nat
  vals : List Nat
  info : Option Info
deriving DecidableEq, Repr

/-- `OsmElement` from `src/io/reader.rs`. -/
inductive OsmElement where
  | Node : Node → OsmElement
  | Way : Way → OsmElement
  | Relation : Relation → OsmElement
  | ChangeSet : ChangeSet → OsmElement
deriving DecidableEq, Repr

/-- `ProcessingStats` from `src/io/reader.rs`. -/
structure ProcessingStats where
  blobs_processed : Nat
  elements_processed : Nat
  nodes_processed : Nat
  ways_processed : Nat
  relations_processed : Nat
  changesets_processed : Nat
  errors_encountered : Nat
deriving DecidableEq, Repr

/-- `ProcessingStats::default` (derived `Default`). -/
def ProcessingStats.default : ProcessingStats :=
  { blobs_processed := 0, elements_processed := 0, nodes_processed := 0
    ways_processed := 0, relations_processed := 0, changesets_processed := 0
    errors_encountered := 0 }

/-- `IndexedReader::read_blob_at_offset` from `src/io/indexed_reader.rs`,
against an in-memory cursor: `UnexpectedEof` on the four length bytes ⇒
`Ok(None)`; a failing `read_exact` of the payload propagates as an I/O error
(the `?` wraps it in `BlobError::Io`); otherwise `Blob::new_raw` with the
stubbed `BlobType::OSMData`. -/
def idxReadBlobAtOffset (file : List Nat) (offset : Nat) :
    Except BlobError (Option Blob) :=
  if offset + 4 > file.length then
    .ok none
  else
    let blob_size := readU32BE file offset
    if offset + 4 + blob_size > file.length then
      .error .Io
    else
      let blob_data := (file.drop (offset + 4)).take blob_size
      match Blob.new_raw BlobType.OSMData blob_data offset with
      | .error e => .error e
      | .ok blob => .ok (some blob)

/-- `IndexedReader::read_blob_by_index` from `src/io/indexed_reader.rs`:
out-of-range positions are `InvalidFormat`, otherwise read at the entry's
offset. -/
def idxReadBlobByIndex (file : List Nat) (blob_index : List BlobIndex)
    (index : Nat) : Except BlobError (Option Blob) :=
  match blob_index.get? index with
  | none =>
    .error (.InvalidFormat ("Blob index " ++ toString index ++ " out of range"))
  | some entry => idxReadBlobAtOffset file entry.offset

/-- `Reader::extract_elements_from_blob` from `src/io/reader.rs`: a
placeholder that always returns `Ok` with the empty vector ("For now, return
empty vec as placeholder"). -/
def extract_elements_from_blob (_blob : Blob) :
    Except BlobError (List OsmElement) :=
  .ok []

/-- The per-element body of the `for_each` loop in `src/io/reader.rs`: bump
the per-type counter and `elements_processed`, then run the closure,
propagating its error. The closure is modelled as state-threading
(a Rust `FnMut` is a mutable state plus a call). -/
def processElements {σ : Type} (processor : σ → OsmElement → Except BlobError σ)
    (stats : ProcessingStats) (state : σ) :
    List OsmElement → Except BlobError (ProcessingStats × σ)
  | [] => .ok (stats, state)
  | element :: rest =>
    let stats :=
      match element with
      | .Node _ => { stats with nodes_processed := stats.nodes_processed + 1 }
      | .Way _ => { stats with ways_processed := stats.ways_processed + 1 }
      | .Relation _ =>
        { stats with relations_processed := stats.relations_processed + 1 }
      | .ChangeSet _ =>
        { stats with changesets_processed := stats.changesets_processed + 1 }
    let stats := { stats with elements_processed := stats.elements_processed + 1 }
    match processor state element with
    | .error e => .error e
    | .ok state => processElements processor stats state rest

/-- The blob loop of `Reader::for_each` from `src/io/reader.rs`: for each
index position, read the blob (an error counts into `errors_encountered` and
the blob is skipped; `Ok(None)` is skipped), bump `blobs_processed`, extract
the elements and feed them to the closure. -/
def forEachAux {σ : Type} (file : List Nat)
    (processor : σ → OsmElement → Except BlobError σ) :
    List BlobIndex → ProcessingStats → σ →
      Except BlobError (ProcessingStats × σ)
  | [], stats, state => .ok (stats, state)
  | entry :: rest, stats, state =>
    match idxReadBlobAtOffset file entry.offset with
    | .error _ =>
      forEachAux file processor rest
        { stats with errors_encountered := stats.errors_encountered + 1 } state
    | .ok none => forEachAux file processor rest stats state
    | .ok (some blob) =>
      let stats := { stats with blobs_processed := stats.blobs_processed + 1 }
      match extract_elements_from_blob blob with
      | .error e => .error e
      | .ok elements =>
        match processElements processor stats state elements with
        | .error e => .error e
        | .ok (stats, state) => forEachAux file processor rest stats state

/-- `Reader::for_each` from `src/io/reader.rs`: build the index from the byte
source (`Reader::new` → `IndexedReader::new`), then run the blob loop with
fresh statistics, returning the final statistics and the closure's final
state. -/
def forEach {σ : Type} (file : List Nat) (init : σ)
    (processor : σ → OsmElement → Except BlobError σ) :
    Except BlobError (ProcessingStats × σ) :=
  forEachAux file processor (idxBuildIndex file) ProcessingStats.default init

/-- The sequence of elements `Reader::for_each` feeds to its closure, in file
order: per indexed blob that reads back successfully, the elements
`extract_elements_from_blob` yields, concatenated. -/
def forEachEmissionAux (file : List Nat) : List BlobIndex → List OsmElement
  | [] => []
  | entry :: rest =>
    match idxReadBlobAtOffset file entry.offset with
    | .error _ => forEachEmissionAux file rest
    | .ok none => forEachEmissionAux file rest
    | .ok (some blob) =>
      (match extract_elements_from_blob blob with
        | .error _ => []
        | .ok elements => elements) ++ forEachEmissionAux file rest

/-- The elements emitted by `Reader::for_each` over the whole file. -/
def forEachEmission (file : List Nat) : List OsmElement :=
  forEachEmissionAux file (idxBuildIndex file)

/-- `Reader::collect_all_elements` from `src/io/reader.rs`: `for_each` with a
closure that pushes every element into a vector. -/
def collect_all_elements (file : List Nat) :
    Except BlobError (List OsmElement) :=
  match forEach file ([] : List OsmElement)
      (fun acc element => .ok (acc ++ [element])) with
  | .error e => .error e
  | .ok (_, all_elements) => .ok all_elements

/-- `Reader::par_map_reduce` from `src/io/reader.rs`: the source's sequential
fallback — start from `identity()`, collect all elements via `for_each`, and
fold `reduce_fn (map_fn ·)` over them left to right. (The optional global
rayon thread-pool configuration guarded by `config.num_threads` does not
affect the value computed and is not modelled.) -/
def par_map_reduce {T : Type} (file : List Nat) (map_fn : OsmElement → T)
    (identity : Unit → T) (reduce_fn : T → T → T) : Except BlobError T :=
  let result := identity ()
  match collect_all_elements file with
  | .error e => .error e
  | .ok all_elements =>
    .ok (all_elements.foldl (fun acc element => reduce_fn acc (map_fn element))
      result)

/-! ## Helper lemmas -/

theorem stringTable_foldl_s (adds : List String) : ∀ t : StringTable,
    (adds.foldl (fun t str => (t.add_string str).1) t).s = t.s ++ adds := by
  induction adds with
  | nil => intro t; simp
  | cons a rest ih =>
    intro t
    rw [List.foldl_cons, ih]
    simp [StringTable.add_string]

theorem stringTable_build_s (adds : List String) :
    (StringTable.build adds).s = "" :: adds := by
  simp [StringTable.build, stringTable_foldl_s, StringTable.new]

/-- `idRangeAdmits entry min_id max_id`: the condition under which
`find_blobs_for_id_range` keeps an entry — the range is unknown, or it
overlaps `[min_id, max_id]`. -/
def idRangeAdmits (entry : BlobIndex) (min_id max_id : Int) : Bool :=
  match entry.id_range with
  | none => true
  | some (blob_min, blob_max) => decide (blob_min ≤ max_id) && decide (blob_max ≥ min_id)

theorem find_blobs_go_cons (min_id max_id : Int) (blob : BlobIndex)
    (rest : List BlobIndex) (c : Nat) :
    find_blobs_for_id_range.go min_id max_id (blob :: rest) c =
      if idRangeAdmits blob min_id max_id then
        c :: find_blobs_for_id_range.go min_id max_id rest (c + 1)
      else
        find_blobs_for_id_range.go min_id max_id rest (c + 1) := by
  rw [find_blobs_for_id_range.go]
  rcases hr : blob.id_range with _ | ⟨blob_min, blob_max⟩
  · simp [idRangeAdmits, hr]
  · by_cases hcond : blob_min ≤ max_id ∧ blob_max ≥ min_id
    · simp [idRangeAdmits, hr, hcond.1, hcond.2, hcond]
    · simp only [idRangeAdmits, hr, if_neg hcond]
      rcases Decidable.not_and_iff_or_not.mp hcond with h | h <;>
        simp [h]

theorem find_blobs_go_mem (min_id max_id : Int) :
    ∀ (l : List BlobIndex) (c j : Nat),
      j ∈ find_blobs_for_id_range.go min_id max_id l c ↔
        ∃ k entry, l.get? k = some entry ∧ j = c + k ∧
          idRangeAdmits entry min_id max_id := by
  intro l
  induction l with
  | nil =>
    intro c j
    simp [find_blobs_for_id_range.go]
  | cons blob rest ih =>
    intro c j
    rw [find_blobs_go_cons]
    by_cases hadm : idRangeAdmits blob min_id max_id
    · rw [if_pos hadm]
      simp only [List.mem_cons]
      constructor
      · rintro (rfl | hj)
        · exact ⟨0, blob, by simp, by omega, hadm⟩
        · obtain ⟨k, entry, hget, hk, hadm2⟩ := (ih (c + 1) j).mp hj
          exact ⟨k + 1, entry, by simpa using hget, by omega, hadm2⟩
      · rintro ⟨k, entry, hget, rfl, hadm2⟩
        rcases k with _ | k
        · simp only [List.get?_cons_zero, Option.some.injEq] at hget
          exact Or.inl (by omega)
        · simp only [List.get?_cons_succ] at hget
          refine Or.inr ((ih (c + 1) _).mpr ⟨k, entry, hget, by omega, hadm2⟩)
    · rw [if_neg hadm]
      rw [ih (c + 1) j]
      constructor
      · rintro ⟨k, entry, hget, rfl, hadm2⟩
        exact ⟨k + 1, entry, by simpa using hget, by omega, hadm2⟩
      · rintro ⟨k, entry, hget, rfl, hadm2⟩
        rcases k with _ | k
        · simp only [List.get?_cons_zero, Option.some.injEq] at hget
          subst hget
          exact absurd hadm2 hadm
        · simp only [List.get?_cons_succ] at hget
          exact ⟨k, entry, hget, by omega, hadm2⟩

/-! ## Claim theorems -/

/-- C10: a `StringTable` produced by `new()` followed by any sequence of
`add_string` calls has `get_string(0) = Some("")`; `get_string(i)` is `Some`
exactly for `i < len` and `None` exactly for `i ≥ len` (never panicking); and
`is_empty()` holds exactly when the table holds only index 0. -/
theorem stringTable_lookup_total (adds : List String) :
    (StringTable.build adds).get_string 0 = some "" ∧
    (∀ i, ((StringTable.build adds).get_string i).isSome ↔
      i < (StringTable.build adds).len) ∧
    (∀ i, (StringTable.build adds).get_string i = none ↔
      (StringTable.build adds).len ≤ i) ∧
    ((StringTable.build adds).is_empty = true ↔
      (StringTable.build adds).s = [""]) := by
  have hs := stringTable_build_s adds
  refine ⟨?_, ?_, ?_, ?_⟩
  · simp [StringTable.get_string, hs]
  · intro i
    simp only [StringTable.get_string, StringTable.len, List.get?_eq_getElem?,
      Option.isSome_iff_ne_none, ne_eq, List.getElem?_eq_none_iff]
    omega
  · intro i
    simp only [StringTable.get_string, StringTable.len, List.get?_eq_getElem?,
      List.getElem?_eq_none_iff]
  · rw [hs]
    simp only [StringTable.is_empty, hs]
    constructor
    · intro h
      rcases adds with _ | ⟨a, rest⟩
      · rfl
      · simp at h
    · intro h
      simp only [List.cons.injEq] at h
      simp [h.2]

/-- C9: `find_blobs_for_id_range` returns exactly the positions of blobs whose
`id_range` is unknown together with those whose known range `(blob_min,
blob_max)` satisfies `blob_min ≤ max_id ∧ blob_max ≥ min_id`; blobs with a
known disjoint range are excluded. -/
theorem find_blobs_for_id_range_spec (blob_index : List BlobIndex)
    (min_id max_id : Int) (i : Nat) :
    i ∈ find_blobs_for_id_range blob_index min_id max_id ↔
      ∃ entry, blob_index.get? i = some entry ∧
        (entry.id_range = none ∨
          ∃ blob_min blob_max, entry.id_range = some (blob_min, blob_max) ∧
            blob_min ≤ max_id ∧ blob_max ≥ min_id) := by
  rw [find_blobs_for_id_range, find_blobs_go_mem]
  constructor
  · rintro ⟨k, entry, hget, rfl, hadm⟩
    refine ⟨entry, by simpa using hget, ?_⟩
    rcases hr : entry.id_range with _ | ⟨blob_min, blob_max⟩
    · exact Or.inl rfl
    · simp only [idRangeAdmits, hr, Bool.and_eq_true, decide_eq_true_eq] at hadm
      exact Or.inr ⟨blob_min, blob_max, rfl, hadm⟩
  · rintro ⟨entry, hget, hadm⟩
    refine ⟨i, entry, hget, by omega, ?_⟩
    rcases hadm with hr | ⟨blob_min, blob_max, hr, h1, h2⟩
    · simp [idRangeAdmits, hr]
    · simp [idRangeAdmits, hr, h1, h2]

theorem deltaDecode_go_length (d : List Int) : ∀ acc : Int,
    (deltaDecode.go acc d).length = d.length := by
  induction d with
  | nil => intro acc; rfl
  | cons dk ds ih =>
    intro acc
    simp [deltaDecode.go, ih]

theorem deltaDecode_go_head (acc : Int) (d : List Int) :
    (deltaDecode.go acc d).get? 0 = (d.get? 0).map (acc + ·) := by
  rcases d with _ | ⟨dk, ds⟩ <;> simp [deltaDecode.go]

theorem deltaDecode_go_step (d : List Int) : ∀ (acc : Int) (k : Nat)
    (x dk : Int), (deltaDecode.go acc d).get? k = some x →
      d.get? (k + 1) = some dk →
      (deltaDecode.go acc d).get? (k + 1) = some (x + dk) := by
  induction d with
  | nil =>
    intro acc k x dk hx _
    simp [deltaDecode.go] at hx
  | cons d0 ds ih =>
    intro acc k x dk hx hdk
    rcases k with _ | k
    · simp only [deltaDecode.go, List.get?_cons_zero, Option.some.injEq] at hx
      simp only [List.get?_cons_succ] at hdk
      simp only [deltaDecode.go, List.get?_cons_succ]
      rw [deltaDecode_go_head, hdk, hx]
      rfl
    · simp only [deltaDecode.go, List.get?_cons_succ] at hx hdk ⊢
      exact ih (acc + d0) k x dk hx hdk

/-- C4: the delta decoder produces the cumulative-sum sequence — the output
has the input's length, `x[0] = d[0]`, and whenever `x[k]` and `d[k+1]` exist,
`x[k+1] = x[k] + d[k+1]`; an empty input produces an empty output; and
decoding `[1000, 5, -3, 2]` yields `[1000, 1005, 1002, 1004]`. -/
theorem deltaDecode_spec :
    deltaDecode [] = [] ∧
    (∀ d : List Int, (deltaDecode d).length = d.length) ∧
    (∀ d : List Int, (deltaDecode d).get? 0 = d.get? 0) ∧
    (∀ (d : List Int) (k : Nat) (x dk : Int),
      (deltaDecode d).get? k = some x → d.get? (k + 1) = some dk →
        (deltaDecode d).get? (k + 1) = some (x + dk)) ∧
    deltaDecode [1000, 5, -3, 2] = [1000, 1005, 1002, 1004] := by
  refine ⟨rfl, ?_, ?_, ?_, by decide⟩
  · intro d
    exact deltaDecode_go_length d 0
  · intro d
    rw [deltaDecode, deltaDecode_go_head]
    rcases d.get? 0 with _ | x <;> simp
  · intro d k x dk hx hdk
    exact deltaDecode_go_step d 0 k x dk hx hdk

/-- Witness for C4: the step law applied at the concrete decode of
`[1000, 5, -3, 2]`, position 0. -/
theorem deltaDecode_spec_witness :
    (deltaDecode [1000, 5, -3, 2]).get? 1 = some 1005 := by
  have h := deltaDecode_spec.2.2.2.1 [1000, 5, -3, 2] 0 1000 5 (by decide)
    (by decide)
  simpa using h

theorem forEachAux_no_elements {σ : Type} (file : List Nat)
    (processor : σ → OsmElement → Except BlobError σ) :
    ∀ (entries : List BlobIndex) (stats : ProcessingStats) (state : σ),
      ∃ stats', forEachAux file processor entries stats state =
          Except.ok (stats', state) ∧
        stats'.elements_processed = stats.elements_processed ∧
        stats'.nodes_processed = stats.nodes_processed ∧
        stats'.ways_processed = stats.ways_processed ∧
        stats'.relations_processed = stats.relations_processed ∧
        stats'.changesets_processed = stats.changesets_processed := by
  intro entries
  induction entries with
  | nil =>
    intro stats state
    exact ⟨stats, rfl, rfl, rfl, rfl, rfl, rfl⟩
  | cons entry rest ih =>
    intro stats state
    rcases h : idxReadBlobAtOffset file entry.offset with e | blob?
    · simpa [forEachAux, h] using
        ih { stats with errors_encountered := stats.errors_encountered + 1 } state
    · rcases blob? with _ | blob
      · simpa [forEachAux, h] using ih stats state
      · simpa [forEachAux, h, extract_elements_from_blob, processElements] using
          ih { stats with blobs_processed := stats.blobs_processed + 1 } state

theorem forEachEmissionAux_nil (file : List Nat) :
    ∀ entries : List BlobIndex, forEachEmissionAux file entries = [] := by
  intro entries
  induction entries with
  | nil => rfl
  | cons entry rest ih =>
    rcases h : idxReadBlobAtOffset file entry.offset with e | blob?
    · simpa [forEachEmissionAux, h] using ih
    · rcases blob? with _ | blob
      · simpa [forEachEmissionAux, h] using ih
      · simpa [forEachEmissionAux, h, extract_elements_from_blob] using ih

/-- C5: for every byte source and every closure, `Reader::for_each` invokes
the closure zero times (its emission is empty and its state comes back
untouched) and succeeds with `elements_processed`, `nodes_processed`,
`ways_processed`, `relations_processed` and `changesets_processed` all zero,
because `extract_elements_from_blob` always produces the empty list. -/
theorem forEach_emits_nothing (file : List Nat) :
    forEachEmission file = [] ∧
    ∀ (σ : Type) (init : σ) (processor : σ → OsmElement → Except BlobError σ),
      ∃ stats, forEach file init processor = Except.ok (stats, init) ∧
        stats.elements_processed = 0 ∧ stats.nodes_processed = 0 ∧
        stats.ways_processed = 0 ∧ stats.relations_processed = 0 ∧
        stats.changesets_processed = 0 := by
  refine ⟨forEachEmissionAux_nil file _, ?_⟩
  intro σ init processor
  obtain ⟨stats', hrun, h1, h2, h3, h4, h5⟩ :=
    forEachAux_no_elements file processor (idxBuildIndex file)
      ProcessingStats.default init
  exact ⟨stats', hrun, by simpa [ProcessingStats.default] using h1,
    by simpa [ProcessingStats.default] using h2,
    by simpa [ProcessingStats.default] using h3,
    by simpa [ProcessingStats.default] using h4,
    by simpa [ProcessingStats.default] using h5⟩

theorem collect_all_elements_eq_emission (file : List Nat) :
    collect_all_elements file = Except.ok (forEachEmission file) := by
  obtain ⟨stats', hrun, _⟩ :=
    forEachAux_no_elements file
      (fun acc element => Except.ok (acc ++ [element]))
      (idxBuildIndex file) ProcessingStats.default []
  rw [collect_all_elements, forEach, hrun, forEachEmission,
    forEachEmissionAux_nil]

/-- C7: for every byte source, map function, identity and commutative,
associative combine function, `Reader::par_map_reduce` returns the same
aggregate value as folding `combine (map ·)` sequentially, starting from
`identity()`, over the elements `for_each` emits in file order (the source's
`par_map_reduce` is a sequential fallback over exactly that element
sequence). -/
theorem par_map_reduce_refines_forEach (file : List Nat) (T : Type)
    (map_fn : OsmElement → T) (identity : Unit → T) (reduce_fn : T → T → T)
    (_hcomm : ∀ a b, reduce_fn a b = reduce_fn b a)
    (_hassoc : ∀ a b c, reduce_fn (reduce_fn a b) c = reduce_fn a (reduce_fn b c)) :
    par_map_reduce file map_fn identity reduce_fn =
      Except.ok ((forEachEmission file).foldl
        (fun acc element => reduce_fn acc (map_fn element)) (identity ())) := by
  rw [par_map_reduce, collect_all_elements_eq_emission]

/-- Witness for C7: concrete instantiation at the empty byte source with
counting under addition on naturals. -/
theorem par_map_reduce_refines_forEach_witness :
    par_map_reduce [] (fun _ => (1 : Nat)) (fun _ => 0) (fun a b => a + b) =
      Except.ok ((forEachEmission []).foldl
        (fun acc element => acc + (fun _ : OsmElement => (1 : Nat)) element) 0) := by
  simpa using par_map_reduce_refines_forEach [] Nat (fun _ => (1 : Nat))
    (fun _ => 0) (fun a b => a + b) (fun a b => Nat.add_comm a b)
    (fun a b c => Nat.add_assoc a b c)

/-- The number of file bytes a recorded frame occupies: the 4-byte big-endian
length prefix plus the recorded `size` (the length field itself). -/
def frameSpan (entry : BlobIndex) : Nat :=
  4 + entry.size

/-- The entries tile the file contiguously from `off`: each entry starts
where the previous one's frame ended. -/
def contiguousFrom : Nat → List BlobIndex → Prop
  | _, [] => True
  | off, entry :: rest =>
    entry.offset = off ∧ contiguousFrom (off + 4 + entry.size) rest

theorem mmapBuildIndexAux_eq (file : List Nat) (offset : Nat) :
    mmapBuildIndexAux file offset =
      if offset < file.length then
        match mmapReadBlobHeaderAtOffset file offset with
        | .error e => .error e
        | .ok none => .ok []
        | .ok (some (header, blob_size)) =>
          match mmapBuildIndexAux file (offset + 4 + blob_size) with
          | .error e => .error e
          | .ok rest => .ok (mkIndexEntry offset blob_size header :: rest)
      else .ok [] := by
  rw [mmapBuildIndexAux]
  rw [dite_eq_ite]

theorem mmapReadHeader_ok_none {file : List Nat} {offset : Nat}
    (h : mmapReadBlobHeaderAtOffset file offset = Except.ok none) :
    file.length < offset + 4 := by
  unfold mmapReadBlobHeaderAtOffset at h
  split at h
  · omega
  · dsimp only at h
    split at h <;> simp at h

theorem mmapReadHeader_ok_some {file : List Nat} {offset : Nat}
    {header : BlobHeader} {blob_size : Nat}
    (h : mmapReadBlobHeaderAtOffset file offset =
      Except.ok (some (header, blob_size))) :
    offset + 4 ≤ file.length ∧ blob_size = readU32BE file offset ∧
      offset + 4 + blob_size ≤ file.length ∧
      header = BlobHeader.new BlobType.OSMData blob_size := by
  unfold mmapReadBlobHeaderAtOffset at h
  split at h
  · simp at h
  · dsimp only at h
    split at h
    · simp at h
    · simp only [Except.ok.injEq, Option.some.injEq, Prod.mk.injEq] at h
      refine ⟨by omega, ?_, by omega, ?_⟩ <;> simp [← h.2, h.1]

theorem mmapBuildIndexAux_tiling : ∀ (n : Nat) (file : List Nat)
    (offset : Nat), file.length - offset ≤ n → offset ≤ file.length →
    ∀ idx, mmapBuildIndexAux file offset = Except.ok idx →
      contiguousFrom offset idx ∧
      offset + (idx.map frameSpan).sum ≤ file.length ∧
      file.length < offset + (idx.map frameSpan).sum + 4 := by
  intro n
  induction n with
  | zero =>
    intro file offset hn hle idx h
    have hnlt : ¬ offset < file.length := by omega
    rw [mmapBuildIndexAux_eq, if_neg hnlt] at h
    simp only [Except.ok.injEq] at h
    subst h
    exact ⟨trivial, by simpa using hle, by simp; omega⟩
  | succ n ih =>
    intro file offset hn hle idx h
    rw [mmapBuildIndexAux_eq] at h
    by_cases hlt : offset < file.length
    · rw [if_pos hlt] at h
      split at h
      · simp at h
      · next hh =>
        simp only [Except.ok.injEq] at h
        subst h
        have := mmapReadHeader_ok_none hh
        exact ⟨trivial, by simpa using hle, by simp; omega⟩
      · next header blob_size hh =>
        obtain ⟨hle4, _, hfit, _⟩ := mmapReadHeader_ok_some hh
        split at h
        · simp at h
        · next rest hrec =>
          simp only [Except.ok.injEq] at h
          subst h
          obtain ⟨hcont, hsum1, hsum2⟩ :=
            ih file (offset + 4 + blob_size) (by omega) hfit rest hrec
          refine ⟨⟨rfl, ?_⟩, ?_, ?_⟩
          · simpa [mkIndexEntry] using hcont
          · simp only [List.map_cons, List.sum_cons, frameSpan, mkIndexEntry]
            omega
          · simp only [List.map_cons, List.sum_cons, frameSpan, mkIndexEntry]
            omega
    · rw [if_neg hlt] at h
      simp only [Except.ok.injEq] at h
      subst h
      exact ⟨trivial, by simpa using hle, by simp; omega⟩

/-- C1 counterexample: at the five-byte file `[0, 0, 0, 1, 170]` — one frame
whose big-endian length field is 1 followed by its single payload byte — the
memory-mapped index builder terminates without error, but the recorded entry's
`size` is the bare length field (1), not `4 + len + datasize`, so
`sum(index[i].size) + index[0].offset = 1 ≠ 5 = file_size`. -/
theorem index_size_sum_counterexample :
    ∃ idx : List BlobIndex, mmapBuildIndex [0, 0, 0, 1, 170] = Except.ok idx ∧
      (idx.map BlobIndex.size).sum + ((idx.map BlobIndex.offset).headD 0) ≠
        ([0, 0, 0, 1, 170] : List Nat).length := by
  refine ⟨[mkIndexEntry 0 1 (BlobHeader.new BlobType.OSMData 1)], ?_, by decide⟩
  simp [mmapBuildIndex, mmapBuildIndexAux, mmapReadBlobHeaderAtOffset,
    readU32BE]

theorem idxReadHeader_none {file : List Nat} {offset : Nat}
    (h : file.length < offset + 4) :
    idxReadBlobHeaderAtOffset file offset = none := by
  unfold idxReadBlobHeaderAtOffset
  rw [if_pos (by omega)]

theorem idxReadHeader_some {file : List Nat} {offset : Nat}
    (h : offset + 4 ≤ file.length) :
    idxReadBlobHeaderAtOffset file offset =
      some (BlobHeader.new BlobType.OSMData (readU32BE file offset),
        readU32BE file offset) := by
  unfold idxReadBlobHeaderAtOffset
  rw [if_neg (by omega)]

theorem idxAux_nil {file : List Nat} {offset : Nat}
    (h : idxReadBlobHeaderAtOffset file offset = none) :
    idxBuildIndexAux file offset = [] := by
  rw [idxBuildIndexAux]
  split
  · rfl
  · next header blob_size heq =>
    rw [h] at heq
    exact absurd heq (by simp)

theorem idxAux_cons {file : List Nat} {offset : Nat}
    {header : BlobHeader} {blob_size : Nat}
    (h : idxReadBlobHeaderAtOffset file offset = some (header, blob_size)) :
    idxBuildIndexAux file offset =
      mkIndexEntry offset blob_size header ::
        idxBuildIndexAux file (offset + 4 + blob_size) := by
  rw [idxBuildIndexAux]
  split
  · next heq =>
    rw [h] at heq
    exact absurd heq (by simp)
  · next header2 blob_size2 heq =>
    rw [h] at heq
    simp only [Option.some.injEq, Prod.mk.injEq] at heq
    rw [heq.1, heq.2]

theorem idxBuildIndexAux_tiling : ∀ (n : Nat) (file : List Nat)
    (offset : Nat), file.length - offset ≤ n →
      contiguousFrom offset (idxBuildIndexAux file offset) ∧
      (∀ entry ∈ idxBuildIndexAux file offset,
        entry.offset + 4 ≤ file.length) ∧
      file.length <
        offset + ((idxBuildIndexAux file offset).map frameSpan).sum + 4 := by
  intro n
  induction n with
  | zero =>
    intro file offset hn
    rw [idxAux_nil (idxReadHeader_none (by omega))]
    exact ⟨trivial, by simp, by simp; omega⟩
  | succ n ih =>
    intro file offset hn
    by_cases hle : offset + 4 ≤ file.length
    · rw [idxAux_cons (idxReadHeader_some hle)]
      obtain ⟨hcont, hmem, hbound⟩ :=
        ih file (offset + 4 + readU32BE file offset) (by omega)
      refine ⟨⟨rfl, ?_⟩, ?_, ?_⟩
      · simpa [mkIndexEntry] using hcont
      · intro entry hentry
        rcases List.mem_cons.mp hentry with rfl | hmem2
        · simpa [mkIndexEntry] using hle
        · exact hmem entry hmem2
      · simp only [List.map_cons, List.sum_cons, frameSpan, mkIndexEntry]
        omega
    · rw [idxAux_nil (idxReadHeader_none (by omega))]
      exact ⟨trivial, by simp, by simp; omega⟩

/-- C1 amended: each recorded entry's `size` is the frame's bare length field
(not `4 + len + datasize`), and the two builders tile the byte source as
follows. When the memory-mapped builder terminates without error, its entries
are contiguous from `index[0].offset = 0` with no gaps and no overlap and
`sum(4 + index[i].size) ≤ file_size < sum(4 + index[i].size) + 4` (at most
three trailing bytes uncovered). The streaming builder always terminates
without error; its entries are likewise contiguous from offset 0 with no
overlap and no gaps (`file_size < sum(4 + index[i].size) + 4`) and every
entry's 4-byte length prefix lies inside the file, but — because the builder
never examines payloads — the upper bound `sum(4 + index[i].size) ≤
file_size` does not hold for it: a final entry may extend past end of
file. -/
theorem index_tiling_amended (file : List Nat) :
    (∀ idx, mmapBuildIndex file = Except.ok idx →
      contiguousFrom 0 idx ∧
      (idx.map frameSpan).sum ≤ file.length ∧
      file.length < (idx.map frameSpan).sum + 4) ∧
    contiguousFrom 0 (idxBuildIndex file) ∧
    (∀ entry ∈ idxBuildIndex file, entry.offset + 4 ≤ file.length) ∧
    file.length < ((idxBuildIndex file).map frameSpan).sum + 4 := by
  obtain ⟨h1, h2, h3⟩ := idxBuildIndexAux_tiling file.length file 0 (by omega)
  refine ⟨?_, h1, h2, by simpa using h3⟩
  intro idx h
  have := mmapBuildIndexAux_tiling file.length file 0 (by omega) (by omega)
    idx h
  simpa using this

/-- Witness for C1 (amended): the memory-mapped clause instantiated at the
concrete file `[0, 0, 0, 1, 170]` and its computed index. -/
theorem index_tiling_amended_witness :
    contiguousFrom 0 [mkIndexEntry 0 1 (BlobHeader.new BlobType.OSMData 1)] ∧
    (([mkIndexEntry 0 1 (BlobHeader.new BlobType.OSMData 1)]).map
      frameSpan).sum ≤ ([0, 0, 0, 1, 170] : List Nat).length ∧
    ([0, 0, 0, 1, 170] : List Nat).length <
      (([mkIndexEntry 0 1 (BlobHeader.new BlobType.OSMData 1)]).map
        frameSpan).sum + 4 :=
  (index_tiling_amended [0, 0, 0, 1, 170]).1
    [mkIndexEntry 0 1 (BlobHeader.new BlobType.OSMData 1)]
    (by simp [mmapBuildIndex, mmapBuildIndexAux, mmapReadBlobHeaderAtOffset,
      readU32BE])

/-- C2: the code's own 64 KiB header cap — `BlobHeader::validate_size` —
rejects a 70000-byte header with `HeaderTooLarge{got: 70000, max: 65536}`,
but no reading or indexing path ever invokes it: the index builder accepts a
frame whose big-endian length field is 70000 (`[0x00, 0x01, 0x11, 0x70]`) and
records it as an ordinary entry of size 70000 instead of failing. -/
theorem header_size_cap_not_enforced :
    BlobHeader.validate_size (BlobHeader.new BlobType.OSMData 70000) 70000 =
      Except.error (BlobError.HeaderTooLarge 70000 65536) ∧
    idxBuildIndex [0, 1, 17, 112] =
      [mkIndexEntry 0 70000 (BlobHeader.new BlobType.OSMData 70000)] := by
  constructor
  · rfl
  · simp [idxBuildIndex, idxBuildIndexAux, idxReadBlobHeaderAtOffset,
      readU32BE, mkIndexEntry]

/-- A single-frame byte source whose 13-byte payload is the protobuf encoding
of `BlobHeader { type: "OSMHeader", datasize: 0 }` (field 1 length-delimited
`"OSMHeader"`, field 3 varint 0). -/
def osmHeaderOnlyFile : List Nat :=
  [0, 0, 0, 13, 10, 9, 79, 83, 77, 72, 101, 97, 100, 101, 114, 24, 0]

/-- C3: a file holding exactly one frame whose `BlobHeader` type is
`"OSMHeader"` is nonetheless indexed with the stubbed type `OSMData`
(`read_blob_header_at_offset` never parses the header bytes), so the
statistics report `header_blobs = 0` and `data_blobs = 1` — not
`header_blobs = 1, data_blobs = 0` — and the dedicated header slot stays
empty. -/
theorem osmheader_type_parsing_stubbed :
    (statistics (idxBuildIndex osmHeaderOnlyFile)).header_blobs = 0 ∧
    (statistics (idxBuildIndex osmHeaderOnlyFile)).data_blobs = 1 ∧
    headerBlobSlot (idxBuildIndex osmHeaderOnlyFile) = none := by
  have hidx : idxBuildIndex osmHeaderOnlyFile =
      [mkIndexEntry 0 13 (BlobHeader.new BlobType.OSMData 13)] := by
    simp [osmHeaderOnlyFile, idxBuildIndex, idxBuildIndexAux,
      idxReadBlobHeaderAtOffset, readU32BE, mkIndexEntry]
  rw [hidx]
  refine ⟨?_, ?_, ?_⟩ <;>
    simp [statistics, IndexStatistics.default, headerBlobSlot, mkIndexEntry,
      BlobHeader.new]

/-- C6 counterexample: at the byte source `[0, 0, 0, 10, 170]` — a trailing
frame declaring a 10-byte payload of which only one byte is present —
memory-mapped reader construction does not succeed: `build_index` propagates
an `InvalidFormat` error (thrown, not downgraded to a warning). -/
theorem truncated_trailing_frame_counterexample :
    mmapBuildIndex [0, 0, 0, 10, 170] =
      Except.error (BlobError.InvalidFormat
        ("Blob at offset " ++ toString 0 ++ " extends beyond file end")) := by
  simp [mmapBuildIndex, mmapBuildIndexAux, mmapReadBlobHeaderAtOffset,
    readU32BE]

/-- C6 amended: the two builders handle a truncated or malformed trailing
frame differently. The streaming builder treats only a partial 4-byte length
field as clean end of file (stopping at the last good entry), records a frame
whose length field is complete but whose payload is truncated as an ordinary
index entry rather than stopping before it, and construction succeeds; the
index remains accessible, with reads of the truncated entry surfacing an I/O
error. The memory-mapped builder instead aborts construction with an
`InvalidFormat` error. -/
theorem truncated_trailing_frame_amended :
    (∀ (file : List Nat) (offset : Nat), file.length < offset + 4 →
      idxReadBlobHeaderAtOffset file offset = none) ∧
    (∀ (file : List Nat) (offset : Nat), offset + 4 ≤ file.length →
      file.length < offset + 4 + readU32BE file offset →
      mmapReadBlobHeaderAtOffset file offset =
        Except.error (BlobError.InvalidFormat
          ("Blob at offset " ++ toString offset ++
            " extends beyond file end"))) ∧
    idxBuildIndex [0, 0, 0, 10, 170] =
      [mkIndexEntry 0 10 (BlobHeader.new BlobType.OSMData 10)] ∧
    idxReadBlobByIndex [0, 0, 0, 10, 170]
      (idxBuildIndex [0, 0, 0, 10, 170]) 0 = Except.error BlobError.Io := by
  have hidx : idxBuildIndex [0, 0, 0, 10, 170] =
      [mkIndexEntry 0 10 (BlobHeader.new BlobType.OSMData 10)] := by
    simp [idxBuildIndex, idxBuildIndexAux, idxReadBlobHeaderAtOffset,
      readU32BE, mkIndexEntry]
  refine ⟨?_, ?_, hidx, ?_⟩
  · intro file offset h
    unfold idxReadBlobHeaderAtOffset
    rw [if_pos (by omega)]
  · intro file offset h1 h2
    unfold mmapReadBlobHeaderAtOffset
    rw [if_neg (by omega)]
    dsimp only
    rw [if_pos (by omega)]
  · rw [hidx]
    simp [idxReadBlobByIndex, idxReadBlobAtOffset, readU32BE, mkIndexEntry]

/-- Witness for C6 (amended): the partial-length-field case at a one-byte
file and the truncated-payload case at `[0, 0, 0, 10, 170]`. -/
theorem truncated_trailing_frame_amended_witness :
    idxReadBlobHeaderAtOffset [170] 0 = none ∧
    mmapReadBlobHeaderAtOffset [0, 0, 0, 10, 170] 0 =
      Except.error (BlobError.InvalidFormat
        ("Blob at offset " ++ toString 0 ++ " extends beyond file end")) :=
  ⟨truncated_trailing_frame_amended.1 [170] 0 (by decide),
   truncated_trailing_frame_amended.2.1 [0, 0, 0, 10, 170] 0 (by decide)
     (by decide)⟩

end OsmPbf
